import Mathlib

/-
Verification of the DSLX front-end parser core (xls/dslx/parser.h and the
Bindings scope chain it drives). The token-level helpers, the comma-sequence
helper, the operator-precedence ladder wiring, ParseConstRef, TryGet and the
module-arena creation are translated from the source header; grammar bodies
that live out of line (ParseBinopChain's loop, ParseTerm, the cast/ternary
productions, the parenthesized-expression/tuple disambiguation, Bindings
resolution, ParseWhile, ParseModule) are modelled from the specification, as
marked on each definition.
-/

namespace XlsDslx

/-- Source position range attached to every token, AST node and error. -/
structure Span where
  lo : Nat
  hi : Nat
deriving DecidableEq, Repr

/-- Token kinds named by parser.h (precedence tables, delimiters, literals). -/
inductive TokenKind where
  | kStar
  | kSlash
  | kPercent
  | kPlus
  | kDoublePlus
  | kMinus
  | kDoubleOAngle
  | kDoubleCAngle
  | kTripleCAngle
  | kAmpersand
  | kHat
  | kBar
  | kDoubleEquals
  | kBangEquals
  | kCAngle
  | kCAngleEquals
  | kOAngle
  | kOAngleEquals
  | kDoubleAmpersand
  | kDoubleBar
  | kComma
  | kOParen
  | kCParen
  | kOBrack
  | kCBrack
  | kIdentifier
  | kNumber
  | kKeyword
deriving DecidableEq, Repr

/-- Keywords that the modelled grammar fragment mentions. -/
inductive Keyword where
  | kwAs
  | kwIf
  | kwElse
  | kwWhile
  | kwCarry
deriving DecidableEq, Repr

/-- Token: an immutable record of kind, span, optional literal value and
optional keyword payload, produced by the external scanner. -/
structure Token where
  kind : TokenKind
  span : Span
  value : Option String := none
  keyword : Option Keyword := none
deriving DecidableEq, Repr

/-- Error kinds of the parser: expected-token mismatches, failed name
resolution, and intentionally unimplemented grammar paths. -/
inductive ParseError where
  | SyntaxError (span : Span) (message : String)
  | UndefinedName (span : Span) (name : String)
  | Unsupported (message : String)
deriving DecidableEq, Repr

/-- Binary operator kinds produced by the precedence ladder of parser.h. -/
inductive BinopKind where
  | mul
  | div
  | mod
  | add
  | concat
  | sub
  | shll
  | shrl
  | shra
  | band
  | bxor
  | bor
  | eq
  | ne
  | gt
  | ge
  | lt
  | le
  | land
  | lor
deriving DecidableEq, Repr

/-- Expression AST nodes for the grammar fragment exercised by the claims:
literals, name references, binary operations, casts, ternaries, tuples and
while loops. Composite nodes own their children by reference into the same
arena; the tree shape is what we model here. -/
inductive Expr where
  | number (value : String)
  | nameRef (name : String)
  | binop (op : BinopKind) (lhs rhs : Expr)
  | cast (arg : Expr) (ty : String)
  | ternary (test consequent alternate : Expr)
  | tuple (members : List Expr)
  | whileLoop (loopId : Nat) (body : Expr)

/-- Recognizer for the cast node shape (used to state that a parse result is
not a cast at its root). -/
def Expr.isCast : Expr → Bool
  | .cast _ _ => true
  | _ => false

/-- Result type of a grammar production over the token cursor: either the
parsed expression together with the remaining stream, or a ParseError. -/
abbrev P := List Token → Except ParseError (Expr × List Token)

/-- Translated from the token-parser surface parser.h relies on: consumes the
next token and returns true only when its kind matches, otherwise leaves the
stream untouched and returns false. -/
def TryDropToken (k : TokenKind) (ts : List Token) : Bool × List Token :=
  match ts with
  | [] => (false, ts)
  | t :: rest => if t.kind = k then (true, rest) else (false, ts)

/-- Translated from the token-parser surface: like TryDropToken, keyed on a
keyword payload. -/
def TryDropKeyword (kw : Keyword) (ts : List Token) : Bool × List Token :=
  match ts with
  | [] => (false, ts)
  | t :: rest =>
    if t.kind = .kKeyword ∧ t.keyword = some kw then (true, rest) else (false, ts)

/-- Translated from the token-parser surface: consumes the next token when its
kind matches, otherwise fails with a SyntaxError naming the offending span. -/
def DropTokenOrError (k : TokenKind) (ts : List Token) : Except ParseError (List Token) :=
  match ts with
  | [] => .error (.SyntaxError ⟨0, 0⟩ "expected a token; found end of input")
  | t :: rest =>
    if t.kind = k then .ok rest
    else .error (.SyntaxError t.span "unexpected token kind")

/-- Translated from the token-parser surface: DropTokenOrError keyed on a
keyword. -/
def DropKeywordOrError (kw : Keyword) (ts : List Token) : Except ParseError (List Token) :=
  match ts with
  | [] => .error (.SyntaxError ⟨0, 0⟩ "expected a keyword; found end of input")
  | t :: rest =>
    if t.kind = .kKeyword ∧ t.keyword = some kw then .ok rest
    else .error (.SyntaxError t.span "unexpected token; expected a keyword")

/-- Whether a token matches a comma-sequence terminator (a token kind or a
keyword), as dispatched by the two lambdas inside ParseCommaSeq. -/
def matchesTerminator : Sum TokenKind Keyword → Token → Bool
  | .inl k, t => decide (t.kind = k)
  | .inr kw, t => decide (t.kind = .kKeyword ∧ t.keyword = some kw)

/-- Translated from ParseCommaSeq's try_pop_terminator lambda: try-drop the
terminator, dispatching on whether it is a token kind or a keyword. -/
def TryPopTerminator (term : Sum TokenKind Keyword) (ts : List Token) : Bool × List Token :=
  match ts with
  | [] => (false, ts)
  | t :: rest => if matchesTerminator term t then (true, rest) else (false, ts)

/-- Translated from ParseCommaSeq's drop_terminator_or_error lambda. -/
def DropTerminatorOrError (term : Sum TokenKind Keyword) (ts : List Token) :
    Except ParseError (List Token) :=
  match term with
  | .inl k => DropTokenOrError k ts
  | .inr kw => DropKeywordOrError kw ts

/-- Translated from the while loop of Parser::ParseCommaSeq (parser.h): each
iteration first tries to pop the terminator, then, when the previous element
was not followed by a comma, requires the terminator, and otherwise parses one
element and records whether a comma followed it. The C++ while loop becomes
fuel-indexed recursion; the accumulator vector becomes the returned list. -/
def ParseCommaSeqLoop {α : Type} (fparse : List Token → Except ParseError (α × List Token))
    (term : Sum TokenKind Keyword) :
    Nat → Bool → List Token → Except ParseError (List α × List Token)
  | 0, _, _ => .error (.SyntaxError ⟨0, 0⟩ "comma sequence did not terminate")
  | fuel + 1, mustEnd, ts =>
    let popped := TryPopTerminator term ts
    if popped.1 then .ok ([], popped.2)
    else if mustEnd then
      match DropTerminatorOrError term ts with
      | .ok ts2 => .ok ([], ts2)
      | .error e => .error e
    else
      match fparse ts with
      | .error e => .error e
      | .ok (elem, ts2) =>
        let dc := TryDropToken .kComma ts2
        match ParseCommaSeqLoop fparse term fuel (!dc.1) dc.2 with
        | .error e => .error e
        | .ok (rest, ts4) => .ok (elem :: rest, ts4)

/-- Translated from Parser::ParseCommaSeq (parser.h): the caller has already
popped the initiator; this helper pops the terminator. must_end starts false. -/
def ParseCommaSeq {α : Type} (fparse : List Token → Except ParseError (α × List Token))
    (term : Sum TokenKind Keyword) (fuel : Nat) (ts : List Token) :
    Except ParseError (List α × List Token) :=
  ParseCommaSeqLoop fparse term fuel false ts

/-- Operator denoted by a target token of the precedence ladder (every kind
in the ladder's target sets is mapped; other kinds never reach a chain). -/
def binopKindOfTok : TokenKind → BinopKind
  | .kStar => .mul
  | .kSlash => .div
  | .kPercent => .mod
  | .kPlus => .add
  | .kDoublePlus => .concat
  | .kMinus => .sub
  | .kDoubleOAngle => .shll
  | .kDoubleCAngle => .shrl
  | .kTripleCAngle => .shra
  | .kAmpersand => .band
  | .kHat => .bxor
  | .kBar => .bor
  | .kDoubleEquals => .eq
  | .kBangEquals => .ne
  | .kCAngle => .gt
  | .kCAngleEquals => .ge
  | .kOAngle => .lt
  | .kOAngleEquals => .le
  | .kDoubleAmpersand => .land
  | .kDoubleBar => .lor
  | _ => .add

/-- Modelled from the spec: the while loop of ParseBinopChain, whose body is
out of line (parser.h only carries its documentation): while the next token is
in the target set, consume it, parse another sub-production as the right hand
side, and fold left-associatively; otherwise return the accumulated result. -/
def ParseBinopChainLoop (sub : P) (targets : List TokenKind) :
    Nat → Expr → List Token → Except ParseError (Expr × List Token)
  | 0, _, _ => .error (.SyntaxError ⟨0, 0⟩ "binop chain did not terminate")
  | _ + 1, lhs, [] => .ok (lhs, [])
  | fuel + 1, lhs, t :: ts1 =>
    if t.kind ∈ targets then
      match sub (ts1) with
      | .error e => .error e
      | .ok (rhs, ts2) =>
        ParseBinopChainLoop sub targets fuel (.binop (binopKindOfTok t.kind) lhs rhs) ts2
    else .ok (lhs, t :: ts1)

/-- Modelled from the spec: ParseBinopChain parses the tighter sub-production
as the left hand side and then folds further sub-productions over the target
tokens (its out-of-line body is documented in parser.h lines 207 to 231). -/
def ParseBinopChain (sub : P) (targets : List TokenKind) (fuel : Nat) (ts : List Token) :
    Except ParseError (Expr × List Token) :=
  match sub ts with
  | .error e => .error e
  | .ok (lhs, ts1) => ParseBinopChainLoop sub targets fuel lhs ts1

/-- Translated from parser.h kStrongArithmeticKinds. -/
def kStrongArithmeticKinds : List TokenKind := [.kStar, .kSlash, .kPercent]

/-- Translated from parser.h kWeakArithmeticKinds. -/
def kWeakArithmeticKinds : List TokenKind := [.kPlus, .kDoublePlus, .kMinus]

/-- Translated from parser.h kBitwiseKinds (the shift operators). -/
def kBitwiseKinds : List TokenKind := [.kDoubleOAngle, .kDoubleCAngle, .kTripleCAngle]

/-- Translated from parser.h kComparisonKinds. -/
def kComparisonKinds : List TokenKind :=
  [.kDoubleEquals, .kBangEquals, .kCAngle, .kCAngleEquals, .kOAngle, .kOAngleEquals]

/-- Modelled from the spec: remainder of a tuple expression, entered once the
comma after the first parenthesized expression has been consumed; the
remaining comma-separated elements are parsed by the comma-sequence helper
with the close paren as terminator, and the first expression is prepended
(parser.h lines 176 to 190 document the contract; the body is out of line). -/
def ParseTupleRemainder (pe : P) (first : Expr) : P := fun ts =>
  match ParseCommaSeq pe (Sum.inl .kCParen) (ts.length + 1) ts with
  | .error e => .error e
  | .ok (es, ts1) => .ok (.tuple (first :: es), ts1)

/-- Modelled from the spec: after consuming an open paren and one expression,
a following comma makes the construct a tuple (ParseTupleRemainder), and
otherwise a close paren is required and the inner expression's own node is
returned with no wrapper. -/
def ParseParenthesizedExpr (pe : P) : P := fun ts =>
  match DropTokenOrError .kOParen ts with
  | .error e => .error e
  | .ok ts1 =>
    match pe ts1 with
    | .error e => .error e
    | .ok (e, ts2) =>
      let dc := TryDropToken .kComma ts2
      if dc.1 then ParseTupleRemainder pe e dc.2
      else
        match DropTokenOrError .kCParen dc.2 with
        | .error e2 => .error e2
        | .ok ts4 => .ok (e, ts4)

/-- Modelled from the spec: ParseTerm (out of line in the source) parses the
atomic expression forms needed by the claims: number literals, name
references, and parenthesized expressions or tuples. -/
def ParseTerm (pe : P) : P := fun ts =>
  match ts with
  | [] => .error (.SyntaxError ⟨0, 0⟩ "expected a term; found end of input")
  | t :: ts1 =>
    match t.kind with
    | .kNumber =>
      match t.value with
      | some v => .ok (.number v, ts1)
      | none => .error (.SyntaxError t.span "number token without a value")
    | .kIdentifier =>
      match t.value with
      | some v => .ok (.nameRef v, ts1)
      | none => .error (.SyntaxError t.span "identifier token without a value")
    | .kOParen => ParseParenthesizedExpr pe ts
    | _ => .error (.SyntaxError t.span "expected the start of an expression")

/-- Modelled from the spec: the as-chain of ParseCastAsExpression; while the
keyword as follows, a type annotation (modelled as one identifier token) is
consumed and a cast node is wrapped around the accumulated expression. -/
def castAsLoop : Expr → Nat → List Token → Except ParseError (Expr × List Token)
  | _, 0, _ => .error (.SyntaxError ⟨0, 0⟩ "cast chain did not terminate")
  | e, fuel + 1, ts =>
    let dk := TryDropKeyword .kwAs ts
    if dk.1 then
      match dk.2 with
      | [] => .error (.SyntaxError ⟨0, 0⟩ "expected a type annotation; found end of input")
      | ty :: ts2 =>
        if ty.kind = .kIdentifier then
          match ty.value with
          | some name => castAsLoop (.cast e name) fuel ts2
          | none => .error (.SyntaxError ty.span "type token without a value")
        else .error (.SyntaxError ty.span "expected a type annotation after the keyword as")
    else .ok (e, ts)

/-- Modelled from the spec: ParseCastAsExpression (declared in parser.h, body
out of line) parses a term and then any number of as-casts around it; it is
the sub-production handed to the multiplicative chain in the source. -/
def ParseCastAsExpression (pe : P) : P := fun ts =>
  match ParseTerm pe ts with
  | .error e => .error e
  | .ok (e, ts1) => castAsLoop e (ts1.length + 1) ts1

/-- Translated from parser.h ParseStrongArithmeticExpression: a binop chain
whose tighter sub-production is ParseCastAsExpression and whose target tokens
are the multiplicative kinds. -/
def ParseStrongArithmeticExpression (pe : P) : P := fun ts =>
  ParseBinopChain (ParseCastAsExpression pe) kStrongArithmeticKinds (ts.length + 1) ts

/-- Translated from parser.h ParseWeakArithmeticExpression. -/
def ParseWeakArithmeticExpression (pe : P) : P := fun ts =>
  ParseBinopChain (ParseStrongArithmeticExpression pe) kWeakArithmeticKinds (ts.length + 1) ts

/-- Translated from parser.h ParseBitwiseExpression (the shift level). -/
def ParseBitwiseExpression (pe : P) : P := fun ts =>
  ParseBinopChain (ParseWeakArithmeticExpression pe) kBitwiseKinds (ts.length + 1) ts

/-- Translated from parser.h ParseAndExpression. -/
def ParseAndExpression (pe : P) : P := fun ts =>
  ParseBinopChain (ParseBitwiseExpression pe) [TokenKind.kAmpersand] (ts.length + 1) ts

/-- Translated from parser.h ParseXorExpression. -/
def ParseXorExpression (pe : P) : P := fun ts =>
  ParseBinopChain (ParseAndExpression pe) [TokenKind.kHat] (ts.length + 1) ts

/-- Translated from parser.h ParseOrExpression. -/
def ParseOrExpression (pe : P) : P := fun ts =>
  ParseBinopChain (ParseXorExpression pe) [TokenKind.kBar] (ts.length + 1) ts

/-- Translated from parser.h ParseComparisonExpression. -/
def ParseComparisonExpression (pe : P) : P := fun ts =>
  ParseBinopChain (ParseOrExpression pe) kComparisonKinds (ts.length + 1) ts

/-- Translated from parser.h ParseLogicalAndExpression. -/
def ParseLogicalAndExpression (pe : P) : P := fun ts =>
  ParseBinopChain (ParseComparisonExpression pe) [TokenKind.kDoubleAmpersand] (ts.length + 1) ts

/-- Translated from parser.h ParseLogicalOrExpression. -/
def ParseLogicalOrExpression (pe : P) : P := fun ts =>
  ParseBinopChain (ParseLogicalAndExpression pe) [TokenKind.kDoubleBar] (ts.length + 1) ts

/-- Modelled from the spec: ParseTernaryExpression (body out of line) parses a
logical-or expression; when the keyword if follows, it parses the test, the
keyword else, and the alternate, building a ternary node, and otherwise
returns the logical-or result unchanged. -/
def ParseTernaryExpression (pe : P) : P := fun ts =>
  match ParseLogicalOrExpression pe ts with
  | .error e => .error e
  | .ok (consequent, ts1) =>
    let di := TryDropKeyword .kwIf ts1
    if di.1 then
      match pe di.2 with
      | .error e => .error e
      | .ok (test, ts3) =>
        match DropKeywordOrError .kwElse ts3 with
        | .error e => .error e
        | .ok ts4 =>
          match pe ts4 with
          | .error e => .error e
          | .ok (alternate, ts5) => .ok (.ternary test consequent alternate, ts5)
    else .ok (consequent, ts1)

/-- Modelled from the spec: ParseExpression dispatches to the outermost level
of the precedence ladder (the ternary level); the fuel bounds the recursion
through nested parentheses, tuples and ternaries. -/
def ParseExpression : Nat → P
  | 0, _ => .error (.SyntaxError ⟨0, 0⟩ "expression nesting exhausted the fuel")
  | fuel + 1, ts => ParseTernaryExpression (ParseExpression fuel) ts

/-- BoundNode: tagged union over the definition kinds a name can resolve to. -/
inductive BoundNode where
  | nameDefNode (id : Nat) (name : String)
  | builtinNameDef (name : String)
  | constantDefNode (id : Nat)
  | importedModule (id : Nat)
deriving DecidableEq, Repr

/-- Modelled from the spec: Bindings is a parent-linked chain of scopes, each
holding a table from names to BoundNodes (cpp_bindings.h is not in the
sources; only its callers are). -/
inductive Bindings where
  | root (table : List (String × BoundNode))
  | nested (parent : Bindings) (table : List (String × BoundNode))
deriving DecidableEq, Repr

/-- Modelled from the spec: Add inserts or overwrites a name in the current
scope only (insertions never leak upward); prepending realizes overwrite
because lookup takes the first match. -/
def Bindings.Add : Bindings → String → BoundNode → Bindings
  | .root t, n, v => .root ((n, v) :: t)
  | .nested p t, n, v => .nested p ((n, v) :: t)

/-- First match in one scope's table. -/
def lookupTable (t : List (String × BoundNode)) (n : String) : Option BoundNode :=
  match t with
  | [] => none
  | (k, v) :: rest => if k = n then some v else lookupTable rest n

/-- Modelled from the spec: resolution walks the parent chain from the
innermost scope outward and the first match wins. -/
def Bindings.ResolveNode : Bindings → String → Option BoundNode
  | .root t, n => lookupTable t n
  | .nested p t, n =>
    match lookupTable t n with
    | some v => some v
    | none => p.ResolveNode n

/-- Modelled from the spec: ResolveNodeOrError returns the resolved BoundNode
or an UndefinedName ParseError carrying the use-site span and the name. -/
def Bindings.ResolveNodeOrError (b : Bindings) (name : String) (span : Span) :
    Except ParseError BoundNode :=
  match b.ResolveNode name with
  | some v => .ok v
  | none => .error (.UndefinedName span name)

/-- Name-definition view of a resolved binding, as returned by
ResolveNameOrError to the callers in the python binding layer. -/
structure AnyNameDef where
  ofNode : BoundNode
deriving DecidableEq, Repr

/-- Modelled from the spec: ResolveNameOrError is the name-definition view of
the same walk, failing with the same UndefinedName error. -/
def Bindings.ResolveNameOrError (b : Bindings) (name : String) (span : Span) :
    Except ParseError AnyNameDef :=
  match b.ResolveNode name with
  | some v => .ok ⟨v⟩
  | none => .error (.UndefinedName span name)

/-- Translated from parser.h ParseConstRef: the body is inline in the header
and unconditionally returns absl UnimplementedError with the message
"Parse ConstRef"; it never inspects its bindings or the stream. -/
def ParseConstRef (bindings : Bindings) (ts : List Token) :
    Except ParseError (Expr × List Token) :=
  .error (.Unsupported "Parse ConstRef")

/-- Parser-side state relevant to loop parsing: the token cursor, the stack of
in-progress while loops (parser.h loop_stack_), and a counter for fresh loop
node identities. -/
structure ParserState where
  tokens : List Token
  loopStack : List Nat
  nextLoopId : Nat
deriving DecidableEq, Repr

/-- Modelled from the spec: a carry back-reference inside a loop body resolves
to the innermost enclosing loop, the top of loop_stack_. -/
def resolveCarry (st : ParserState) : Option Nat := st.loopStack.head?

/-- Modelled from the spec: loop entry allocates the while node and pushes it
onto loop_stack_. -/
def enterLoop (st : ParserState) : Nat × ParserState :=
  (st.nextLoopId,
   { st with loopStack := st.nextLoopId :: st.loopStack, nextLoopId := st.nextLoopId + 1 })

/-- Modelled from the spec: loop exit pops loop_stack_. -/
def exitLoop (st : ParserState) : ParserState :=
  { st with loopStack := st.loopStack.tail }

/-- Modelled from the spec: ParseWhile (body out of line) pushes the new while
node on the loop stack, parses the body, and pops the stack on the success
path and on the error path alike, so push and pop are strictly paired. -/
def ParseWhile (parseBody : ParserState → Except ParseError (Expr × ParserState))
    (st : ParserState) : Except ParseError Expr × ParserState :=
  let ws := enterLoop st
  match parseBody ws.2 with
  | .ok (body, st2) => (.ok (.whileLoop ws.1 body), exitLoop st2)
  | .error e => (.error e, exitLoop ws.2)

/-- An allocated AST node of the arena model: it records the identity of the
module that owns it and an abstract payload. -/
structure AstNode where
  owner : Nat
  shape : Nat
deriving DecidableEq, Repr

/-- Module: the arena exclusively owning the AST nodes of one parse, plus the
module name. -/
structure Module where
  id : Nat
  name : String
  nodes : List AstNode
deriving DecidableEq, Repr

/-- Modelled from the spec: the arena allocation interface Make appends one
node, owned by this module, and returns its index; nodes are never freed or
reassigned. -/
def Module.Make (m : Module) (shape : Nat) : Module × Nat :=
  ({ m with nodes := m.nodes ++ [⟨m.id, shape⟩] }, m.nodes.length)

/-- Translated from the Parser constructor in parser.h: the Module is
allocated exactly once, before any parsing starts, and starts empty. -/
def parserInitModule (moduleName : String) (moduleId : Nat) : Module :=
  ⟨moduleId, moduleName, []⟩

/-- Modelled from the spec: ParseModule (body out of line) drives the parse of
the top-level items, allocating every produced AST node into the one module
created for this call, and returns that module; the abstract shapes stand for
the allocation requests the parse makes. -/
def ParseModule (moduleName : String) (moduleId : Nat) (shapes : List Nat) : Module :=
  shapes.foldl (fun m s => (Module.Make m s).1) (parserInitModule moduleName moduleId)

/-- A nullable pointer, the payload shape TryGet is instantiated at. -/
inductive Ptr (α : Type) where
  | null
  | mk (val : α)
deriving DecidableEq, Repr

/-- A three-alternative variant of pointer payloads, standing for the
absl variant instantiations TryGet is applied to. -/
inductive Variant3 (α β γ : Type) where
  | alt1 (p : Ptr α)
  | alt2 (p : Ptr β)
  | alt3 (p : Ptr γ)
deriving DecidableEq, Repr

/-- Translated from parser.h TryGet at the first alternative: when the variant
holds the requested alternative the held pointer is returned, and otherwise
the null pointer; the variant is taken by const reference and never mutated,
which the embedding renders as a pure function. -/
def TryGet1 {α β γ : Type} : Variant3 α β γ → Ptr α
  | .alt1 p => p
  | _ => .null

/-- Translated from parser.h TryGet at the second alternative. -/
def TryGet2 {α β γ : Type} : Variant3 α β γ → Ptr β
  | .alt2 p => p
  | _ => .null

/-- Translated from parser.h TryGet at the third alternative. -/
def TryGet3 {α β γ : Type} : Variant3 α β γ → Ptr γ
  | .alt3 p => p
  | _ => .null

/-- Token constructor helper for operator and delimiter tokens. -/
def tok (k : TokenKind) : Token := ⟨k, ⟨0, 0⟩, none, none⟩

/-- Token constructor helper for identifier tokens. -/
def idTok (s : String) : Token := ⟨.kIdentifier, ⟨0, 0⟩, some s, none⟩

/-- Token constructor helper for number tokens. -/
def numTok (s : String) : Token := ⟨.kNumber, ⟨0, 0⟩, some s, none⟩

/-- Token constructor helper for keyword tokens. -/
def kwTok (kw : Keyword) : Token := ⟨.kKeyword, ⟨0, 0⟩, none, some kw⟩

/-- The comma token used when assembling concrete token streams. -/
def commaTok : Token := tok .kComma

/-- The open-paren token. -/
def oparenTok : Token := tok .kOParen

/-- The close-paren token. -/
def cparenTok : Token := tok .kCParen

/-- A concrete elementary production used to exercise the generic helpers:
parses exactly one identifier token and yields its string value. -/
def parseIdentTok (ts : List Token) : Except ParseError (String × List Token) :=
  match ts with
  | [] => .error (.SyntaxError ⟨0, 0⟩ "expected an identifier; found end of input")
  | t :: rest =>
    if t.kind = .kIdentifier then
      match t.value with
      | some v => .ok (v, rest)
      | none => .error (.SyntaxError t.span "identifier token without a value")
    else .error (.SyntaxError t.span "expected identifier")

/-- A concrete elementary expression production: one identifier token parsed
to a name reference. -/
def parseIdentExpr : P := fun ts =>
  match ts with
  | [] => .error (.SyntaxError ⟨0, 0⟩ "expected an identifier; found end of input")
  | t :: rest =>
    if t.kind = .kIdentifier then
      match t.value with
      | some v => .ok (.nameRef v, rest)
      | none => .error (.SyntaxError t.span "identifier token without a value")
    else .error (.SyntaxError t.span "expected identifier")

/-- Token stream of a comma-delimited sequence: the given element chunks
separated by commas, an optional single trailing comma after the last chunk,
then the terminator token and arbitrary following tokens. -/
def seqItems (chunks : List (List Token)) (trailing : Bool) (tt : Token)
    (rest : List Token) : List Token :=
  match chunks with
  | [] => tt :: rest
  | [c] => c ++ (if trailing then commaTok :: tt :: rest else tt :: rest)
  | c :: cs => c ++ commaTok :: seqItems cs trailing tt rest

/-- Token stream of a binary-operator chain continuation: operator tokens each
followed by an operand chunk, then arbitrary following tokens. -/
def pairsFlat : List (Token × List Token) → List Token → List Token
  | [], rest => rest
  | (op, c) :: ps, rest => op :: (c ++ pairsFlat ps rest)

/-- A chunk is a valid element start for a comma sequence: nonempty, and its
first token does not match the terminator. -/
def chunkHeadOk (term : Sum TokenKind Keyword) : List Token → Bool
  | [] => false
  | t :: _ => !(matchesTerminator term t)

/-- The continuation after a binop chain must not begin with a target token. -/
def restOk (targets : List TokenKind) : List Token → Bool
  | [] => true
  | t :: _ => decide (t.kind ∉ targets)

/-- C1 counterexample: in the code, cast binds tightest, not loosest. The
stream a * b as T parses with a multiplication at the root whose right child
is the cast; were cast the loosest level, the root would be a cast node. -/
theorem c1_cast_is_tightest_counterexample :
    ParseExpression 40 [idTok "a", tok .kStar, idTok "b", kwTok .kwAs, idTok "T"]
      = Except.ok (Expr.binop .mul (.nameRef "a") (.cast (.nameRef "b") "T"), [])
    ∧ Expr.isCast (Expr.binop .mul (.nameRef "a") (.cast (.nameRef "b") "T")) = false :=
  ⟨rfl, rfl⟩

/-- C1 (amended): binary operators are composed by the precedence ladder
whose levels, from tightest-binding to loosest-binding, are cast (as) as the
tightest, then multiplicative, additive, shift, bitwise-and, bitwise-xor,
bitwise-or, comparison, logical-and, logical-or, and the ternary if/else as
the loosest. The first nine conjuncts state the wiring of each level exactly
as in the source: each level is a binop chain whose tighter sub-production is
the next level down, with cast handed to the multiplicative chain. The
remaining conjuncts pin each adjacent pair of levels on a concrete parse,
including that a + b * c parses as add(a, mul(b, c)). -/
theorem c1_precedence_ladder_amended (pe : P) (ts : List Token) :
    (ParseStrongArithmeticExpression pe ts
      = ParseBinopChain (ParseCastAsExpression pe) kStrongArithmeticKinds (ts.length + 1) ts)
    ∧ (ParseWeakArithmeticExpression pe ts
      = ParseBinopChain (ParseStrongArithmeticExpression pe) kWeakArithmeticKinds (ts.length + 1) ts)
    ∧ (ParseBitwiseExpression pe ts
      = ParseBinopChain (ParseWeakArithmeticExpression pe) kBitwiseKinds (ts.length + 1) ts)
    ∧ (ParseAndExpression pe ts
      = ParseBinopChain (ParseBitwiseExpression pe) [TokenKind.kAmpersand] (ts.length + 1) ts)
    ∧ (ParseXorExpression pe ts
      = ParseBinopChain (ParseAndExpression pe) [TokenKind.kHat] (ts.length + 1) ts)
    ∧ (ParseOrExpression pe ts
      = ParseBinopChain (ParseXorExpression pe) [TokenKind.kBar] (ts.length + 1) ts)
    ∧ (ParseComparisonExpression pe ts
      = ParseBinopChain (ParseOrExpression pe) kComparisonKinds (ts.length + 1) ts)
    ∧ (ParseLogicalAndExpression pe ts
      = ParseBinopChain (ParseComparisonExpression pe) [TokenKind.kDoubleAmpersand] (ts.length + 1) ts)
    ∧ (ParseLogicalOrExpression pe ts
      = ParseBinopChain (ParseLogicalAndExpression pe) [TokenKind.kDoubleBar] (ts.length + 1) ts)
    ∧ ParseExpression 40 [idTok "a", tok .kStar, idTok "b", kwTok .kwAs, idTok "T"]
      = Except.ok (Expr.binop .mul (.nameRef "a") (.cast (.nameRef "b") "T"), [])
    ∧ ParseExpression 40 [idTok "a", tok .kPlus, idTok "b", tok .kStar, idTok "c"]
      = Except.ok (Expr.binop .add (.nameRef "a") (.binop .mul (.nameRef "b") (.nameRef "c")), [])
    ∧ ParseExpression 40 [idTok "a", tok .kDoubleOAngle, idTok "b", tok .kPlus, idTok "c"]
      = Except.ok (Expr.binop .shll (.nameRef "a") (.binop .add (.nameRef "b") (.nameRef "c")), [])
    ∧ ParseExpression 40 [idTok "a", tok .kAmpersand, idTok "b", tok .kDoubleOAngle, idTok "c"]
      = Except.ok (Expr.binop .band (.nameRef "a") (.binop .shll (.nameRef "b") (.nameRef "c")), [])
    ∧ ParseExpression 40 [idTok "a", tok .kHat, idTok "b", tok .kAmpersand, idTok "c"]
      = Except.ok (Expr.binop .bxor (.nameRef "a") (.binop .band (.nameRef "b") (.nameRef "c")), [])
    ∧ ParseExpression 40 [idTok "a", tok .kBar, idTok "b", tok .kHat, idTok "c"]
      = Except.ok (Expr.binop .bor (.nameRef "a") (.binop .bxor (.nameRef "b") (.nameRef "c")), [])
    ∧ ParseExpression 40 [idTok "a", tok .kDoubleEquals, idTok "b", tok .kBar, idTok "c"]
      = Except.ok (Expr.binop .eq (.nameRef "a") (.binop .bor (.nameRef "b") (.nameRef "c")), [])
    ∧ ParseExpression 40 [idTok "a", tok .kDoubleAmpersand, idTok "b", tok .kDoubleEquals, idTok "c"]
      = Except.ok (Expr.binop .land (.nameRef "a") (.binop .eq (.nameRef "b") (.nameRef "c")), [])
    ∧ ParseExpression 40 [idTok "a", tok .kDoubleBar, idTok "b", tok .kDoubleAmpersand, idTok "c"]
      = Except.ok (Expr.binop .lor (.nameRef "a") (.binop .land (.nameRef "b") (.nameRef "c")), [])
    ∧ ParseExpression 40
        [idTok "a", tok .kDoubleBar, idTok "b", kwTok .kwIf, idTok "c", kwTok .kwElse, idTok "d"]
      = Except.ok (Expr.ternary (.nameRef "c")
          (.binop .lor (.nameRef "a") (.nameRef "b")) (.nameRef "d"), []) :=
  ⟨rfl, rfl, rfl, rfl, rfl, rfl, rfl, rfl, rfl, rfl,
   rfl, rfl, rfl, rfl, rfl, rfl, rfl, rfl, rfl⟩

/-- Helper: when the next token matches the terminator, one iteration of the
comma-sequence loop pops it and stops, for any must-end flag. -/
theorem parseCommaSeqLoop_stop {α : Type}
    (fparse : List Token → Except ParseError (α × List Token))
    (term : Sum TokenKind Keyword) (tt : Token) (mustEnd : Bool) (rest : List Token)
    (fuel : Nat) (hfuel : 1 ≤ fuel) (hterm : matchesTerminator term tt = true) :
    ParseCommaSeqLoop fparse term fuel mustEnd (tt :: rest) = Except.ok ([], rest) := by
  obtain ⟨f, rfl⟩ : ∃ f, fuel = f + 1 := ⟨fuel - 1, by omega⟩
  simp [ParseCommaSeqLoop, TryPopTerminator, hterm]

/-- Helper: on a well-formed comma-delimited stream, the comma-sequence loop
returns the elements in source order and the cursor past the terminator. -/
theorem parseCommaSeqLoop_items {α : Type}
    (fparse : List Token → Except ParseError (α × List Token))
    (term : Sum TokenKind Keyword) (tt : Token)
    (hterm : matchesTerminator term tt = true)
    (httk : tt.kind ≠ TokenKind.kComma) :
    ∀ (items : List (List Token × α)) (trailing : Bool) (rest : List Token) (fuel : Nat),
      items.length + 1 ≤ fuel →
      (∀ p ∈ items, ∀ tail, fparse (p.1 ++ tail) = Except.ok (p.2, tail)) →
      (∀ p ∈ items, chunkHeadOk term p.1 = true) →
      ParseCommaSeqLoop fparse term fuel false (seqItems (items.map Prod.fst) trailing tt rest)
        = Except.ok (items.map Prod.snd, rest) := by
  intro items
  induction items with
  | nil =>
    intro trailing rest fuel hfuel _ _
    have h := parseCommaSeqLoop_stop fparse term tt false rest fuel (by omega) hterm
    simpa [seqItems] using h
  | cons hd tl ih =>
    intro trailing rest fuel hfuel hparse hheads
    obtain ⟨f, rfl⟩ : ∃ f, fuel = f + 1 := ⟨fuel - 1, by omega⟩
    obtain ⟨c, a⟩ := hd
    have hhd : chunkHeadOk term c = true := hheads (c, a) (by simp)
    obtain ⟨t, c1, rfl⟩ : ∃ t c1, c = t :: c1 := by
      cases c with
      | nil => simp [chunkHeadOk] at hhd
      | cons t c1 => exact ⟨t, c1, rfl⟩
    have htm : matchesTerminator term t = false := by
      simpa [chunkHeadOk] using hhd
    cases tl with
    | nil =>
      have hf : 1 ≤ f := by simp at hfuel; omega
      cases trailing with
      | false =>
        have hp := hparse (t :: c1, a) (by simp) (tt :: rest)
        simp only [List.cons_append] at hp
        have hstop := parseCommaSeqLoop_stop fparse term tt true rest f hf hterm
        simp [seqItems, ParseCommaSeqLoop, TryPopTerminator, htm, hp,
              TryDropToken, httk, hstop]
      | true =>
        have hp := hparse (t :: c1, a) (by simp) (commaTok :: tt :: rest)
        simp only [List.cons_append, commaTok, tok] at hp
        have hstop := parseCommaSeqLoop_stop fparse term tt false rest f hf hterm
        simp [seqItems, ParseCommaSeqLoop, TryPopTerminator, htm, hp,
              TryDropToken, commaTok, tok, hstop]
    | cons hd2 tl2 =>
      have hp := hparse (t :: c1, a) (by simp)
        (commaTok :: seqItems ((hd2 :: tl2).map Prod.fst) trailing tt rest)
      simp only [List.cons_append, List.map_cons, commaTok, tok] at hp
      have ihh := ih trailing rest f (by simp at hfuel ⊢; omega)
        (fun p hp2 => hparse p (by simp [hp2]))
        (fun p hp2 => hheads p (by simp [hp2]))
      simp only [List.map_cons] at ihh ⊢
      simp [seqItems, ParseCommaSeqLoop, TryPopTerminator, htm, hp,
            TryDropToken, commaTok, tok, ihh]

/-- Helper: a comma-delimited stream over nonempty chunks is longer than the
number of chunks. -/
theorem seqItems_length_le (tt : Token) :
    ∀ (chunks : List (List Token)) (trailing : Bool) (rest : List Token),
      (∀ c ∈ chunks, c ≠ []) →
      chunks.length + 1 ≤ (seqItems chunks trailing tt rest).length := by
  intro chunks
  induction chunks with
  | nil => intro trailing rest _; simp [seqItems]
  | cons c cs ih =>
    intro trailing rest hne
    have hc : c ≠ [] := hne c (by simp)
    have h1 : 1 ≤ c.length := List.length_pos.mpr hc
    cases cs with
    | nil =>
      cases trailing <;> simp [seqItems, List.length_append] <;> omega
    | cons c2 cs2 =>
      have h2 := ih trailing rest (fun x hx => hne x (by simp [hx]))
      simp only [List.length_cons] at h2 ⊢
      simp [seqItems, List.length_append]
      omega

/-- C2: for every balanced comma-delimited sequence (any number of elements,
with or without one trailing comma before the terminator), ParseCommaSeq
returns exactly the elements in source order and consumes the terminator,
leaving the cursor on the tokens past it; and on a double comma or a missing
terminator it fails with a SyntaxError instead of returning elements, as the
two concrete streams show. -/
theorem c2_parse_comma_seq {α : Type}
    (fparse : List Token → Except ParseError (α × List Token))
    (term : Sum TokenKind Keyword) (tt : Token) (items : List (List Token × α))
    (trailing : Bool) (rest : List Token) (fuel : Nat)
    (hterm : matchesTerminator term tt = true)
    (httk : tt.kind ≠ TokenKind.kComma)
    (hfuel : items.length + 1 ≤ fuel)
    (hparse : ∀ p ∈ items, ∀ tail, fparse (p.1 ++ tail) = Except.ok (p.2, tail))
    (hheads : ∀ p ∈ items, chunkHeadOk term p.1 = true) :
    ParseCommaSeq fparse term fuel (seqItems (items.map Prod.fst) trailing tt rest)
      = Except.ok (items.map Prod.snd, rest)
    ∧ ParseCommaSeq parseIdentTok (Sum.inl TokenKind.kCParen) 5
        [idTok "a", commaTok, commaTok, cparenTok]
      = Except.error (ParseError.SyntaxError ⟨0, 0⟩ "expected identifier")
    ∧ ParseCommaSeq parseIdentTok (Sum.inl TokenKind.kCParen) 5 [idTok "a"]
      = Except.error (ParseError.SyntaxError ⟨0, 0⟩ "expected a token; found end of input") := by
  refine ⟨?_, rfl, rfl⟩
  exact parseCommaSeqLoop_items fparse term tt hterm httk items trailing rest fuel
    hfuel hparse hheads

/-- Witness for C2: the sequence a, b, with a trailing comma, a close-paren
terminator, and one token after the terminator. -/
theorem c2_parse_comma_seq_witness :
    ParseCommaSeq parseIdentTok (Sum.inl TokenKind.kCParen) 5
        (seqItems [[idTok "a"], [idTok "b"]] true cparenTok [idTok "z"])
      = Except.ok (["a", "b"], [idTok "z"])
    ∧ ParseCommaSeq parseIdentTok (Sum.inl TokenKind.kCParen) 5
        [idTok "a", commaTok, commaTok, cparenTok]
      = Except.error (ParseError.SyntaxError ⟨0, 0⟩ "expected identifier")
    ∧ ParseCommaSeq parseIdentTok (Sum.inl TokenKind.kCParen) 5 [idTok "a"]
      = Except.error (ParseError.SyntaxError ⟨0, 0⟩ "expected a token; found end of input") := by
  exact c2_parse_comma_seq parseIdentTok (Sum.inl TokenKind.kCParen) cparenTok
    [([idTok "a"], "a"), ([idTok "b"], "b")] true [idTok "z"] 5
    rfl (by decide) (by decide)
    (by intro p hp tail
        simp only [List.mem_cons, List.not_mem_nil, or_false] at hp
        rcases hp with rfl | rfl <;> rfl)
    (by intro p hp
        simp only [List.mem_cons, List.not_mem_nil, or_false] at hp
        rcases hp with rfl | rfl <;> rfl)

/-- Helper: the binop chain loop folds the operator and operand chunks of a
well-formed stream left-associatively over the accumulated left-hand side. -/
theorem parseBinopChainLoop_items (sub : P) (targets : List TokenKind) :
    ∀ (pairs : List ((Token × List Token) × Expr)) (lhs : Expr) (rest : List Token)
      (fuel : Nat),
      pairs.length + 1 ≤ fuel →
      (∀ p ∈ pairs, ∀ tail, sub (p.1.2 ++ tail) = Except.ok (p.2, tail)) →
      (∀ p ∈ pairs, p.1.1.kind ∈ targets) →
      restOk targets rest = true →
      ParseBinopChainLoop sub targets fuel lhs (pairsFlat (pairs.map Prod.fst) rest)
        = Except.ok
            (pairs.foldl (fun acc p => Expr.binop (binopKindOfTok p.1.1.kind) acc p.2) lhs,
             rest) := by
  intro pairs
  induction pairs with
  | nil =>
    intro lhs rest fuel hfuel _ _ hrest
    obtain ⟨f, rfl⟩ : ∃ f, fuel = f + 1 := ⟨fuel - 1, by omega⟩
    cases rest with
    | nil => simp [pairsFlat, ParseBinopChainLoop]
    | cons r rs =>
      have hr : r.kind ∉ targets := by simpa [restOk] using hrest
      simp [pairsFlat, ParseBinopChainLoop, hr]
  | cons pr tl ih =>
    intro lhs rest fuel hfuel hsub htgt hrest
    obtain ⟨f, rfl⟩ : ∃ f, fuel = f + 1 := ⟨fuel - 1, by omega⟩
    obtain ⟨⟨op, c⟩, e⟩ := pr
    have hin : op.kind ∈ targets := htgt ((op, c), e) (by simp)
    have hs := hsub ((op, c), e) (by simp) (pairsFlat (tl.map Prod.fst) rest)
    have ihh := ih (Expr.binop (binopKindOfTok op.kind) lhs e) rest f
      (by simp at hfuel ⊢; omega)
      (fun p hp2 => hsub p (by simp [hp2]))
      (fun p hp2 => htgt p (by simp [hp2]))
      hrest
    simp only [List.map_cons] at ihh ⊢
    simp [pairsFlat, ParseBinopChainLoop, hin, hs, ihh]

/-- C3: ParseBinopChain parses the sub-production once and then folds every
following target-token and operand pair left-associatively: each step builds
a binary node whose left child is the accumulated result and whose right
child is the newly parsed operand, so a chain yields the left-leaning tree,
and with no following target token (an empty pair list) the sub-production's
result is returned unchanged. -/
theorem c3_binop_chain_left_assoc (sub : P) (targets : List TokenKind)
    (c0 : List Token) (e0 : Expr) (pairs : List ((Token × List Token) × Expr))
    (rest : List Token) (fuel : Nat)
    (h0 : ∀ tail, sub (c0 ++ tail) = Except.ok (e0, tail))
    (hsub : ∀ p ∈ pairs, ∀ tail, sub (p.1.2 ++ tail) = Except.ok (p.2, tail))
    (htgt : ∀ p ∈ pairs, p.1.1.kind ∈ targets)
    (hrest : restOk targets rest = true)
    (hfuel : pairs.length + 1 ≤ fuel) :
    ParseBinopChain sub targets fuel (c0 ++ pairsFlat (pairs.map Prod.fst) rest)
      = Except.ok
          (pairs.foldl (fun acc p => Expr.binop (binopKindOfTok p.1.1.kind) acc p.2) e0,
           rest) := by
  have h := h0 (pairsFlat (pairs.map Prod.fst) rest)
  simp only [ParseBinopChain, h]
  exact parseBinopChainLoop_items sub targets pairs e0 rest fuel hfuel hsub htgt hrest

/-- Witness for C3: the chain a * b * c folds to mul(mul(a, b), c), the
left-leaning tree, never mul(a, mul(b, c)). -/
theorem c3_binop_chain_left_assoc_witness :
    ParseBinopChain parseIdentExpr kStrongArithmeticKinds 5
        [idTok "a", tok .kStar, idTok "b", tok .kStar, idTok "c"]
      = Except.ok
          (Expr.binop .mul (Expr.binop .mul (.nameRef "a") (.nameRef "b")) (.nameRef "c"),
           []) := by
  exact c3_binop_chain_left_assoc parseIdentExpr kStrongArithmeticKinds
    [idTok "a"] (.nameRef "a")
    [((tok .kStar, [idTok "b"]), .nameRef "b"), ((tok .kStar, [idTok "c"]), .nameRef "c")]
    [] 5
    (fun tail => rfl)
    (by intro p hp tail
        simp only [List.mem_cons, List.not_mem_nil, or_false] at hp
        rcases hp with rfl | rfl <;> rfl)
    (by intro p hp
        simp only [List.mem_cons, List.not_mem_nil, or_false] at hp
        rcases hp with rfl | rfl <;> decide)
    rfl
    (by decide)

/-- C4: after an open paren and one expression, a following comma makes the
construct a tuple holding the first expression and the remaining
comma-separated elements, and otherwise a close paren is required and the
inner expression's own node is returned with no tuple wrapper; concretely,
a parenthesized name parses to the name's own node, a one-element stream with
trailing comma to a one-element tuple, and two elements to a two-element
tuple. -/
theorem c4_paren_vs_tuple (pe : P) (chunk0 : List Token) (e0 : Expr)
    (items : List (List Token × Expr)) (trailing : Bool) (rest : List Token)
    (hpe0 : ∀ tail, pe (chunk0 ++ tail) = Except.ok (e0, tail))
    (hparse : ∀ p ∈ items, ∀ tail, pe (p.1 ++ tail) = Except.ok (p.2, tail))
    (hheads : ∀ p ∈ items, chunkHeadOk (Sum.inl TokenKind.kCParen) p.1 = true) :
    ParseParenthesizedExpr pe (oparenTok :: (chunk0 ++ cparenTok :: rest))
      = Except.ok (e0, rest)
    ∧ ParseParenthesizedExpr pe
        (oparenTok ::
          (chunk0 ++ commaTok :: seqItems (items.map Prod.fst) trailing cparenTok rest))
      = Except.ok (Expr.tuple (e0 :: items.map Prod.snd), rest)
    ∧ ParseExpression 20 [oparenTok, idTok "x", cparenTok]
      = Except.ok (Expr.nameRef "x", [])
    ∧ ParseExpression 20 [oparenTok, idTok "x", commaTok, cparenTok]
      = Except.ok (Expr.tuple [Expr.nameRef "x"], [])
    ∧ ParseExpression 20 [oparenTok, idTok "x", commaTok, idTok "y", cparenTok]
      = Except.ok (Expr.tuple [Expr.nameRef "x", Expr.nameRef "y"], []) := by
  refine ⟨?_, ?_, rfl, rfl, rfl⟩
  · have hp := hpe0 (cparenTok :: rest)
    simp only [cparenTok, tok] at hp
    simp [ParseParenthesizedExpr, DropTokenOrError, oparenTok, cparenTok, tok, hp,
          TryDropToken]
  · have hp := hpe0 (commaTok :: seqItems (items.map Prod.fst) trailing cparenTok rest)
    simp only [commaTok, tok] at hp
    have hne : ∀ c ∈ items.map Prod.fst, c ≠ [] := by
      intro c hc
      obtain ⟨p, hpmem, rfl⟩ := List.mem_map.mp hc
      have hh := hheads p hpmem
      cases hcc : p.1 with
      | nil => rw [hcc] at hh; simp [chunkHeadOk] at hh
      | cons u v => simp [hcc]
    have hlenS := seqItems_length_le cparenTok (items.map Prod.fst) trailing rest hne
    have hlen : items.length + 1
        ≤ (seqItems (items.map Prod.fst) trailing cparenTok rest).length + 1 := by
      simp only [List.length_map] at hlenS
      omega
    have hcs := parseCommaSeqLoop_items pe (Sum.inl TokenKind.kCParen) cparenTok rfl
      (by decide) items trailing rest
      ((seqItems (items.map Prod.fst) trailing cparenTok rest).length + 1)
      hlen hparse hheads
    simp [ParseParenthesizedExpr, DropTokenOrError, oparenTok, tok, hp, TryDropToken,
          commaTok, ParseTupleRemainder, ParseCommaSeq, hcs]

/-- Witness for C4: a parenthesized single name, and a two-element tuple. -/
theorem c4_paren_vs_tuple_witness :
    ParseParenthesizedExpr parseIdentExpr (oparenTok :: ([idTok "a"] ++ cparenTok :: []))
      = Except.ok (Expr.nameRef "a", [])
    ∧ ParseParenthesizedExpr parseIdentExpr
        (oparenTok :: ([idTok "a"] ++ commaTok :: seqItems [[idTok "b"]] false cparenTok []))
      = Except.ok (Expr.tuple [Expr.nameRef "a", Expr.nameRef "b"], [])
    ∧ ParseExpression 20 [oparenTok, idTok "x", cparenTok]
      = Except.ok (Expr.nameRef "x", [])
    ∧ ParseExpression 20 [oparenTok, idTok "x", commaTok, cparenTok]
      = Except.ok (Expr.tuple [Expr.nameRef "x"], [])
    ∧ ParseExpression 20 [oparenTok, idTok "x", commaTok, idTok "y", cparenTok]
      = Except.ok (Expr.tuple [Expr.nameRef "x", Expr.nameRef "y"], []) := by
  exact c4_paren_vs_tuple parseIdentExpr [idTok "a"] (.nameRef "a")
    [([idTok "b"], Expr.nameRef "b")] false []
    (fun tail => rfl)
    (by intro p hp tail
        simp only [List.mem_cons, List.not_mem_nil, or_false] at hp
        subst hp; rfl)
    (by intro p hp
        simp only [List.mem_cons, List.not_mem_nil, or_false] at hp
        subst hp; rfl)

/-- C5: resolution walks the parent-linked scope chain from the innermost
scope outward and the first match wins: a name defined in an enclosing scope
and again in a nested scope resolves to the nested definition while that
scope is active, resolves to the outer definition once the nested scope is
discarded, and an empty nested scope defers to its parent. -/
theorem c5_shadowing_resolution (b : Bindings) (n : String) (v1 v2 : BoundNode) :
    ((Bindings.nested (b.Add n v1) []).Add n v2).ResolveNode n = some v2
    ∧ (b.Add n v1).ResolveNode n = some v1
    ∧ ∀ p : Bindings, (Bindings.nested p []).ResolveNode n = p.ResolveNode n := by
  refine ⟨?_, ?_, ?_⟩
  · cases b <;> simp [Bindings.Add, Bindings.ResolveNode, lookupTable]
  · cases b <;> simp [Bindings.Add, Bindings.ResolveNode, lookupTable]
  · intro p
    simp [Bindings.ResolveNode, lookupTable]

/-- C6: a name that resolves in no scope of the chain makes ResolveNodeOrError
and ResolveNameOrError return an UndefinedName ParseError carrying exactly the
use-site span passed by the caller together with the unresolved name; no
silent default value is returned. -/
theorem c6_undefined_name_error (b : Bindings) (n : String) (sp : Span)
    (h : b.ResolveNode n = none) :
    b.ResolveNodeOrError n sp = Except.error (ParseError.UndefinedName sp n)
    ∧ b.ResolveNameOrError n sp = Except.error (ParseError.UndefinedName sp n) := by
  constructor <;>
    simp [Bindings.ResolveNodeOrError, Bindings.ResolveNameOrError, h]

/-- Witness for C6 at the empty root scope and the concrete span 3..4. -/
theorem c6_undefined_name_error_witness :
    (Bindings.root []).ResolveNodeOrError "x" ⟨3, 4⟩
      = Except.error (ParseError.UndefinedName ⟨3, 4⟩ "x")
    ∧ (Bindings.root []).ResolveNameOrError "x" ⟨3, 4⟩
      = Except.error (ParseError.UndefinedName ⟨3, 4⟩ "x") :=
  c6_undefined_name_error (Bindings.root []) "x" ⟨3, 4⟩ rfl

/-- C7: ParseConstRef always fails with the distinct unimplemented error kind
carrying the message "Parse ConstRef", for every bindings argument and every
token stream; in particular it never returns a parsed value and never an
undefined-name error. -/
theorem c7_parse_const_ref_unimplemented (bindings : Bindings) (ts : List Token) :
    ParseConstRef bindings ts = Except.error (ParseError.Unsupported "Parse ConstRef") :=
  rfl

/-- C8: the loop stack is pushed on loop entry and popped on loop exit in
strictly paired LIFO order: whenever the body parse preserves the loop-stack
depth, the stack after ParseWhile equals the stack before it, on the success
path and on the error path alike; and inside the body a carry back-reference
resolves to the innermost enclosing loop, the one just pushed, even when
loops nest. -/
theorem c8_loop_stack_balanced
    (parseBody : ParserState → Except ParseError (Expr × ParserState)) (st : ParserState)
    (hbody : ∀ s e s2, parseBody s = Except.ok (e, s2) → s2.loopStack = s.loopStack) :
    (ParseWhile parseBody st).2.loopStack = st.loopStack
    ∧ resolveCarry (enterLoop st).2 = some (enterLoop st).1
    ∧ resolveCarry (enterLoop (enterLoop st).2).2 = some (enterLoop (enterLoop st).2).1 := by
  refine ⟨?_, rfl, rfl⟩
  simp only [ParseWhile, enterLoop, exitLoop]
  cases h : parseBody
      { tokens := st.tokens, loopStack := st.nextLoopId :: st.loopStack,
        nextLoopId := st.nextLoopId + 1 } with
  | error e => simp [h]
  | ok pr =>
    obtain ⟨e, st2⟩ := pr
    have hst := hbody _ _ _ h
    simp only at hst
    simp [h, hst]

/-- Witness for C8 with a body that parses a number literal and a body-free
initial state. -/
theorem c8_loop_stack_balanced_witness :
    (ParseWhile (fun s => Except.ok (Expr.number "0", s)) ⟨[], [], 0⟩).2.loopStack
      = ([] : List Nat)
    ∧ resolveCarry (enterLoop (⟨[], [], 0⟩ : ParserState)).2
      = some (enterLoop (⟨[], [], 0⟩ : ParserState)).1
    ∧ resolveCarry (enterLoop (enterLoop (⟨[], [], 0⟩ : ParserState)).2).2
      = some (enterLoop (enterLoop (⟨[], [], 0⟩ : ParserState)).2).1 :=
  c8_loop_stack_balanced (fun s => Except.ok (Expr.number "0", s)) ⟨[], [], 0⟩
    (fun s e s2 h => by
      injection h with h1
      injection h1 with he hs
      rw [← hs])

/-- Helper for C9: folding arena allocations over any starting module keeps
the module identity and name, grows the arena by exactly the allocated nodes,
and tags every new node with the module identity. -/
theorem parseModule_foldl_arena (shapes : List Nat) :
    ∀ m : Module,
      (shapes.foldl (fun m s => (Module.Make m s).1) m).id = m.id
      ∧ (shapes.foldl (fun m s => (Module.Make m s).1) m).name = m.name
      ∧ (shapes.foldl (fun m s => (Module.Make m s).1) m).nodes.length
          = m.nodes.length + shapes.length
      ∧ ((shapes.foldl (fun m s => (Module.Make m s).1) m).nodes.all
            fun nd => decide (nd.owner = m.id))
          = (m.nodes.all fun nd => decide (nd.owner = m.id)) := by
  induction shapes with
  | nil => intro m; simp
  | cons s tl ih =>
    intro m
    obtain ⟨h1, h2, h3, h4⟩ := ih (Module.Make m s).1
    refine ⟨?_, ?_, ?_, ?_⟩
    · simpa [Module.Make] using h1
    · simpa [Module.Make] using h2
    · simp only [List.foldl_cons]
      rw [h3]
      simp [Module.Make]
      omega
    · simp only [List.foldl_cons]
      have hid : (Module.Make m s).1.id = m.id := rfl
      rw [hid] at h4
      rw [h4]
      simp [Module.Make]

/-- C9: the module arena is created once per ParseModule call (by the Parser
constructor, before any allocation) with the requested identity and name;
every AST node allocated during the parse lands in that arena, each tagged as
owned by that module and never reassigned; and each single allocation only
appends one node owned by the current module, leaving all earlier nodes in
place. -/
theorem c9_module_arena (moduleName : String) (moduleId : Nat) (shapes : List Nat)
    (m : Module) (s : Nat) :
    (ParseModule moduleName moduleId shapes).id = moduleId
    ∧ (ParseModule moduleName moduleId shapes).name = moduleName
    ∧ (ParseModule moduleName moduleId shapes).nodes.length = shapes.length
    ∧ ((ParseModule moduleName moduleId shapes).nodes.all
        fun nd => decide (nd.owner = moduleId)) = true
    ∧ (Module.Make m s).1.id = m.id
    ∧ (Module.Make m s).1.nodes = m.nodes ++ [⟨m.id, s⟩] := by
  obtain ⟨h1, h2, h3, h4⟩ := parseModule_foldl_arena shapes (parserInitModule moduleName moduleId)
  refine ⟨h1, h2, ?_, ?_, rfl, rfl⟩
  · simpa [ParseModule, parserInitModule] using h3
  · simpa [ParseModule, parserInitModule] using h4

/-- C10: TryGet returns the held pointer when the variant currently holds the
requested alternative and the null pointer when it holds any other
alternative, for each of the three alternatives; as a pure function of the
variant it cannot mutate it. -/
theorem c10_try_get {α β γ : Type} (a : Ptr α) (b : Ptr β) (c : Ptr γ) :
    TryGet1 (Variant3.alt1 a : Variant3 α β γ) = a
    ∧ TryGet1 (Variant3.alt2 b : Variant3 α β γ) = Ptr.null
    ∧ TryGet1 (Variant3.alt3 c : Variant3 α β γ) = Ptr.null
    ∧ TryGet2 (Variant3.alt2 b : Variant3 α β γ) = b
    ∧ TryGet2 (Variant3.alt1 a : Variant3 α β γ) = Ptr.null
    ∧ TryGet2 (Variant3.alt3 c : Variant3 α β γ) = Ptr.null
    ∧ TryGet3 (Variant3.alt3 c : Variant3 α β γ) = c
    ∧ TryGet3 (Variant3.alt1 a : Variant3 α β γ) = Ptr.null
    ∧ TryGet3 (Variant3.alt2 b : Variant3 α β γ) = Ptr.null :=
  ⟨rfl, rfl, rfl, rfl, rfl, rfl, rfl, rfl, rfl⟩

end XlsDslx
